import Mathlib

/-!
# Verification of the console-bot contact manager core

Shallow embedding of `src/project/functionality_for_bot.py`.

Conventions of the embedding:

* Python `datetime` values are modelled by the `Bot.Date` structure; the
  calendar arithmetic (`toordinal`, `weekday`, leap years, `replace`,
  `timedelta` addition, `strptime`/`strftime` with format `%d.%m.%Y`)
  follows CPython's `datetime` module (`_is_leap`, `_DAYS_IN_MONTH`,
  `_DAYS_BEFORE_MONTH`, `_days_before_year`).  A Python `datetime` object
  is always a valid calendar date; `Date.Valid` expresses that.
  The time-of-day component is irrelevant to every operation modelled here
  (`toordinal`, `.date()` comparison, `weekday`, `strftime` with a
  date-only format all ignore it), so it is omitted.
* `datetime.now()` is modelled by passing `today` explicitly to the
  operations that read the clock (`Birthday` construction,
  `get_upcoming_birthdays`).
* Fallible Python code (raising exceptions) becomes `Except BotError`.
  `BotError.validationError` models the repo's `ValidationError`;
  `BotError.dateFormatError` models the `ValueError("Invalid date format.
  Use DD.MM.YYYY")` raised by `Birthday.__init__` (the spec's
  `DateFormatError`); `BotError.notFoundError` models the
  `ValueError` raised by `list.index` and the `KeyError` raised by
  `dict.pop` (the spec's `NotFoundError`); `BotError.runtimeError` models
  any other uncaught exception, i.e. a crash outside the spec's typed
  error taxonomy (notably the `ValueError` raised by
  `datetime.replace(year=...)` when the month/day does not exist in the
  target year).
* Python's `str.isdigit` is modelled on the decimal digits `'0'..'9'`
  (`Char.isDigit`); strings here range over those characters.
* `strftime('%Y')` is modelled as the zero-padded four-digit year, the
  rendering matching `strptime`'s four-digit `%Y` field for every year the
  constructor accepts (1..9999).
* The model ignores Python's `OverflowError` for dates past year 9999
  reached by `timedelta` addition (the weekend roll of
  `get_upcoming_birthdays`); the year bound is enforced where the source
  enforces it, in the `date` constructor and `replace`.
-/

set_option maxHeartbeats 1000000

namespace Bot

/-! ## Calendar arithmetic (CPython `datetime`) -/

structure Date where
  year : Nat
  month : Nat
  day : Nat
deriving DecidableEq, Repr

/-- CPython `_is_leap`. -/
def isLeap (y : Nat) : Bool :=
  y % 4 == 0 && (y % 100 != 0 || y % 400 == 0)

/-- CPython `_days_in_month` (`_DAYS_IN_MONTH` table plus leap fix-up). -/
def daysInMonth (y m : Nat) : Nat :=
  if m = 2 && isLeap y then 29
  else match m with
    | 1 => 31 | 2 => 28 | 3 => 31 | 4 => 30 | 5 => 31 | 6 => 30
    | 7 => 31 | 8 => 31 | 9 => 30 | 10 => 31 | 11 => 30 | 12 => 31
    | _ => 0

/-- CPython `_days_before_month` (`_DAYS_BEFORE_MONTH` table plus leap fix-up). -/
def daysBeforeMonth (y m : Nat) : Nat :=
  (match m with
    | 1 => 0 | 2 => 31 | 3 => 59 | 4 => 90 | 5 => 120 | 6 => 151
    | 7 => 181 | 8 => 212 | 9 => 243 | 10 => 273 | 11 => 304 | 12 => 334
    | _ => 365)
  + (if 2 < m && isLeap y then 1 else 0)

/-- CPython `_days_before_year`. -/
def daysBeforeYear (y : Nat) : Nat :=
  365 * (y - 1) + (y - 1) / 4 - (y - 1) / 100 + (y - 1) / 400

/-- CPython `date.toordinal`: day 1 is 0001-01-01. -/
def Date.toordinal (d : Date) : Nat :=
  daysBeforeYear d.year + daysBeforeMonth d.year d.month + d.day

/-- CPython `date.weekday`: `(toordinal + 6) % 7`, Monday = 0 .. Sunday = 6. -/
def Date.weekday (d : Date) : Nat :=
  (d.toordinal + 6) % 7

/-- The dates representable as Python `date` objects: what the `date`
constructor accepts (CPython `_check_date_fields`), except that the upper
year bound 9999 is tracked separately where it matters. -/
def Date.Valid (d : Date) : Prop :=
  1 ≤ d.year ∧ 1 ≤ d.month ∧ d.month ≤ 12 ∧ 1 ≤ d.day ∧
    d.day ≤ daysInMonth d.year d.month

instance (d : Date) : Decidable d.Valid := by
  unfold Date.Valid; infer_instance

/-- Python `date.__lt__`: lexicographic on (year, month, day). -/
def dateLT (a b : Date) : Prop :=
  a.year < b.year ∨
    (a.year = b.year ∧ (a.month < b.month ∨ (a.month = b.month ∧ a.day < b.day)))

instance (a b : Date) : Decidable (dateLT a b) := by
  unfold dateLT; infer_instance

/-- Python `date.__le__`. -/
def dateLE (a b : Date) : Prop :=
  dateLT a b ∨ a = b

instance (a b : Date) : Decidable (dateLE a b) := by
  unfold dateLE; infer_instance

/-- The calendar successor of a date. -/
def nextDay (d : Date) : Date :=
  if d.day < daysInMonth d.year d.month then ⟨d.year, d.month, d.day + 1⟩
  else if d.month < 12 then ⟨d.year, d.month + 1, 1⟩
  else ⟨d.year + 1, 1, 1⟩

/-- `d + timedelta(days=n)` for `n ≥ 0`. -/
def addDays (d : Date) : Nat → Date
  | 0 => d
  | n + 1 => nextDay (addDays d n)

/-- CPython `date.replace(year=y)`: re-runs the `date` constructor checks on
the new field values and raises `ValueError` (here: `none`) when they fail —
in particular for Feb 29 mapped into a non-leap year. -/
def replaceYear (d : Date) (y : Nat) : Option Date :=
  if 1 ≤ y ∧ y ≤ 9999 ∧ 1 ≤ d.month ∧ d.month ≤ 12 ∧ 1 ≤ d.day ∧
      d.day ≤ daysInMonth y d.month then
    some ⟨y, d.month, d.day⟩
  else none

/-! ## `strftime('%d.%m.%Y')` and `strptime(_, '%d.%m.%Y')` -/

/-- Two-digit zero-padded decimal rendering (`%d`, `%m`). -/
def pad2 (n : Nat) : List Char :=
  [Nat.digitChar (n / 10 % 10), Nat.digitChar (n % 10)]

/-- Four-digit zero-padded decimal rendering (`%Y`). -/
def pad4 (n : Nat) : List Char :=
  [Nat.digitChar (n / 1000 % 10), Nat.digitChar (n / 100 % 10),
    Nat.digitChar (n / 10 % 10), Nat.digitChar (n % 10)]

/-- `date.strftime('%d.%m.%Y')`. -/
def renderDate (d : Date) : String :=
  String.mk (pad2 d.day ++ '.' :: (pad2 d.month ++ '.' :: pad4 d.year))

/-- Split a character list at every `'.'` (the literal separators of the
`%d.%m.%Y` pattern). -/
def splitDot : List Char → List (List Char)
  | [] => [[]]
  | c :: cs =>
    if c = '.' then [] :: splitDot cs
    else match splitDot cs with
      | [] => [[c]]
      | f :: rest => (c :: f) :: rest

/-- Value of a string of decimal digits. -/
def digitsToNat (l : List Char) : Nat :=
  l.foldl (fun a c => 10 * a + (c.toNat - 48)) 0

/-- The `%d` field of CPython `_strptime`: one or two decimal digits with
value 1..31. -/
def parseDay (l : List Char) : Option Nat :=
  if 1 ≤ l.length ∧ l.length ≤ 2 ∧ l.all Char.isDigit then
    if 1 ≤ digitsToNat l ∧ digitsToNat l ≤ 31 then some (digitsToNat l)
    else none
  else none

/-- The `%m` field of CPython `_strptime`: one or two decimal digits with
value 1..12. -/
def parseMonth (l : List Char) : Option Nat :=
  if 1 ≤ l.length ∧ l.length ≤ 2 ∧ l.all Char.isDigit then
    if 1 ≤ digitsToNat l ∧ digitsToNat l ≤ 12 then some (digitsToNat l)
    else none
  else none

/-- The `%Y` field of CPython `_strptime`: exactly four decimal digits. -/
def parseYear (l : List Char) : Option Nat :=
  if l.length = 4 ∧ l.all Char.isDigit then some (digitsToNat l)
  else none

/-- `datetime.strptime(s, '%d.%m.%Y')`: the full string must match
`%d`, literal `.`, `%m`, literal `.`, `%Y`, and the matched fields must
form a constructible date (`1 ≤ year ≤ 9999`, `day ≤ daysInMonth`); any
failure raises `ValueError` (here: `none`). -/
def parseStrptime (s : String) : Option Date :=
  match splitDot s.toList with
  | [ds, ms, ys] =>
    match parseDay ds, parseMonth ms, parseYear ys with
    | some dd, some mm, some yy =>
      if 1 ≤ yy ∧ dd ≤ daysInMonth yy mm then some ⟨yy, mm, dd⟩ else none
    | _, _, _ => none
  | _ => none

/-! ## Error model -/

/-- The failure kinds of the core, per the spec's error taxonomy (§7).
`runtimeError` is any uncaught exception outside that taxonomy. -/
inductive BotError where
  | validationError (msg : String)
  | dateFormatError (msg : String)
  | notFoundError
  | runtimeError (msg : String)
deriving DecidableEq, Repr

/-! ## Field validators -/

/-- Python `str.isdigit` (restricted to the decimal digits, see the file
header): true iff the string is nonempty and all characters are digits. -/
def pyIsdigit (s : String) : Bool :=
  !s.toList.isEmpty && s.toList.all Char.isDigit

/-- `Phone.__init__`: accepts iff `value.isdigit() and len(value) == 10`.
The stored `.value` is the string itself. -/
def mkPhone (s : String) : Except BotError String :=
  if pyIsdigit s && s.length == 10 then .ok s
  else .error (.validationError "The phone must have 10 numbers.")

/-- `Birthday.__init__` at clock time `today`: `strptime` failure raises
the date-format `ValueError`; a parsed date is accepted iff
`birthday.date() <= now.date()`, else `ValidationError`. -/
def mkBirthday (today : Date) (s : String) : Except BotError Date :=
  match parseStrptime s with
  | none => .error (.dateFormatError "Invalid date format. Use DD.MM.YYYY")
  | some d =>
    if dateLE d today then .ok d
    else .error (.validationError "Incorrect date.")

/-! ## Record -/

/-- A `Record`: name (a plain string, `Name` adds no behaviour), the list of
phone `.value` strings, optional birthday. -/
structure Record where
  name : String
  phones : List String
  birthday : Option Date
deriving DecidableEq, Repr

/-- `Record.__init__(name, phone=None)`: note `[Phone(phone)] if phone
else []` — both `None` and the empty string are falsy, so an empty-string
phone is silently dropped without validation. -/
def Record.make (name : String) (phone : Option String) : Except BotError Record :=
  match phone with
  | none => .ok ⟨name, [], none⟩
  | some p =>
    if p = "" then .ok ⟨name, [], none⟩
    else (mkPhone p).map fun v => ⟨name, [v], none⟩

/-- `Record.find_phone`: validates the argument (it constructs
`Phone(phone)`), then returns the first stored phone of equal value. -/
def Record.find_phone (r : Record) (p : String) : Except BotError (Option String) :=
  (mkPhone p).map fun v => r.phones.find? (fun q => q == v)

/-- `Record.add_phone`: appends iff `find_phone` returns `None`. -/
def Record.add_phone (r : Record) (p : String) : Except BotError Record :=
  match r.find_phone p with
  | .error e => .error e
  | .ok (some _) => .ok r
  | .ok none =>
    match mkPhone p with
    | .error e => .error e
    | .ok v => .ok { r with phones := r.phones ++ [v] }

/-- `Record.remove_phone`: `list.index` on the values (raising on a missing
value — the spec's `NotFoundError`), then `pop` at that index. -/
def Record.remove_phone (r : Record) (p : String) : Except BotError Record :=
  match mkPhone p with
  | .error e => .error e
  | .ok v =>
    match r.phones.findIdx? (fun q => q == v) with
    | none => .error .notFoundError
    | some i => .ok { r with phones := r.phones.eraseIdx i }

/-- `Record.edit_phone`: index of `old` (raising when absent), then if
`new` is already present and the raw strings differ, remove `old`;
otherwise overwrite the slot at `old`'s index with `Phone(new)`. -/
def Record.edit_phone (r : Record) (old new : String) : Except BotError Record :=
  match mkPhone old with
  | .error e => .error e
  | .ok oldV =>
    match r.phones.findIdx? (fun q => q == oldV) with
    | none => .error .notFoundError
    | some i =>
      match r.find_phone new with
      | .error e => .error e
      | .ok found =>
        if found.isSome && old != new then
          r.remove_phone old
        else
          match mkPhone new with
          | .error e => .error e
          | .ok v => .ok { r with phones := r.phones.set i v }

/-- `Record.add_birthday` at clock time `today`: unconditionally replaces
the stored birthday on success. -/
def Record.add_birthday (today : Date) (r : Record) (s : String) : Except BotError Record :=
  (mkBirthday today s).map fun bd => { r with birthday := some bd }

/-! ## AddressBook -/

/-- An `AddressBook`: the backing `dict` as an insertion-ordered
association list with unique keys (a Python `dict` can never hold a
duplicate key). -/
structure AddressBook where
  data : List (String × Record)
deriving DecidableEq, Repr

def AddressBook.records (b : AddressBook) : List Record :=
  b.data.map Prod.snd

/-- `dict.__setitem__`: overwrite in place when the key exists (keeping its
position), else append. `add_record` uses the record's own name as key. -/
def AddressBook.add_record (b : AddressBook) (r : Record) : AddressBook :=
  if b.data.any (fun kv => kv.1 == r.name) then
    ⟨b.data.map fun kv => if kv.1 == r.name then (kv.1, r) else kv⟩
  else ⟨b.data ++ [(r.name, r)]⟩

/-- `AddressBook.find`: `dict.get`, total, `none` on a missing key. -/
def AddressBook.find (b : AddressBook) (name : String) : Option Record :=
  (b.data.find? (fun kv => kv.1 == name)).map Prod.snd

/-- `AddressBook.delete`: `dict.pop(name)`, raising `KeyError` (the spec's
`NotFoundError`) on a missing key.  Failure returns no book: the input
book is untouched. -/
def AddressBook.delete (b : AddressBook) (name : String) : Except BotError AddressBook :=
  if b.data.any (fun kv => kv.1 == name) then
    .ok ⟨b.data.eraseP (fun kv => kv.1 == name)⟩
  else .error .notFoundError

/-! ## get_upcoming_birthdays -/

/-- The loop body of `get_upcoming_birthdays` for one record, at clock time
`today`: `none` when the record is skipped, `some (name, rendered)` when
it is emitted, `.error` when an exception escapes (the `ValueError` from
`replace`). -/
def upcomingEntry (today : Date) (rec : Record) : Except BotError (Option (String × String)) :=
  match rec.birthday with
  | none => .ok none
  | some bdv =>
    match replaceYear bdv today.year with
    | none => .error (.runtimeError "day is out of range for month")
    | some b0 =>
      match (if dateLT b0 today then replaceYear b0 (today.year + 1) else some b0) with
      | none => .error (.runtimeError "day is out of range for month")
      | some b1 =>
        if (0 : Int) ≤ (b1.toordinal : Int) - (today.toordinal : Int) ∧
            (b1.toordinal : Int) - (today.toordinal : Int) ≤ 7 then
          let wd := b1.weekday
          let b2 := if wd = 5 ∨ wd = 6 then addDays b1 (7 - wd) else b1
          .ok (some (rec.name, renderDate b2))
        else .ok none

/-- The `for` loop of `get_upcoming_birthdays` over the records in
iteration order; the first escaping exception aborts the call. -/
def collectUpcoming (today : Date) : List Record → Except BotError (List (String × String))
  | [] => .ok []
  | r :: rs =>
    match upcomingEntry today r with
    | .error e => .error e
    | .ok o =>
      match collectUpcoming today rs with
      | .error e => .error e
      | .ok rest =>
        match o with
        | none => .ok rest
        | some e => .ok (e :: rest)

/-- `AddressBook.get_upcoming_birthdays` at clock time `today`. -/
def AddressBook.get_upcoming_birthdays (today : Date) (b : AddressBook) :
    Except BotError (List (String × String)) :=
  collectUpcoming today b.records


/-- The occurrence of a stored birthday targeted by the window check, per
the spec: this year's occurrence of the birthday's month/day, or next
year's when this year's has already passed relative to `today`.  `none`
when the occurrence cannot be constructed (Feb 29 mapped into a non-leap
year), the case in which the source raises. -/
def specTarget (today bd : Date) : Option Date :=
  (replaceYear bd today.year).bind fun b0 =>
    if dateLT b0 today then replaceYear b0 (today.year + 1) else some b0

/-- The spec's upcoming window: the number of days from `today` to the
occurrence lies in [0, 7] inclusive. -/
def inWindow (today t : Date) : Prop :=
  today.toordinal ≤ t.toordinal ∧ t.toordinal ≤ today.toordinal + 7

instance (today t : Date) : Decidable (inWindow today t) := by
  unfold inWindow; infer_instance

/-- The weekend roll: a Saturday (weekday 5) or Sunday (weekday 6)
occurrence moves forward by `7 - weekday` days. -/
def rollWeekend (t : Date) : Date :=
  if t.weekday = 5 ∨ t.weekday = 6 then addDays t (7 - t.weekday) else t

/-- What one loop iteration emits, said with the spec's vocabulary. -/
def specEmit (today : Date) (r : Record) : Option (String × String) :=
  match r.birthday with
  | none => none
  | some bd =>
    match specTarget today bd with
    | none => none
    | some t =>
      if inWindow today t then some (r.name, renderDate (rollWeekend t)) else none

/-- The strings `Phone` accepts: exactly ten decimal digits. -/
def validPhone (s : String) : Prop :=
  s.length = 10 ∧ ∀ c ∈ s.toList, c.isDigit = true

instance (s : String) : Decidable (validPhone s) := by
  unfold validPhone; infer_instance

/-- The per-record invariant: every stored phone value is a valid 10-digit
string, and no two stored entries have equal value. -/
def RecordInv (r : Record) : Prop :=
  (∀ p ∈ r.phones, validPhone p) ∧ r.phones.Nodup

/-- One in-place mutation of a `Record` through the core operations
(a failing call raises and leaves the record untouched, so only the
successful outcomes appear). -/
inductive RecordStep : Record → Record → Prop where
  | add_phone (r : Record) (p : String) (r' : Record) :
      r.add_phone p = .ok r' → RecordStep r r'
  | remove_phone (r : Record) (p : String) (r' : Record) :
      r.remove_phone p = .ok r' → RecordStep r r'
  | edit_phone (r : Record) (old new : String) (r' : Record) :
      r.edit_phone old new = .ok r' → RecordStep r r'
  | add_birthday (today : Date) (r : Record) (s : String) (r' : Record) :
      Record.add_birthday today r s = .ok r' → RecordStep r r'

/-- The records obtainable through the core operations: `Record(...)`
construction followed by any number of mutations. -/
inductive ReachableRecord : Record → Prop where
  | make (name : String) (p : Option String) (r : Record) :
      Record.make name p = .ok r → ReachableRecord r
  | step (r r' : Record) : ReachableRecord r → RecordStep r r' → ReachableRecord r'

/-- The book invariant of C10: every key is its record's name and every
record satisfies `RecordInv`. -/
def BookInv (b : AddressBook) : Prop :=
  ∀ kv ∈ b.data, kv.1 = kv.2.name ∧ RecordInv kv.2

/-- The books obtainable through the core operations: start empty, then
`add_record`, `delete`, and in-place mutation of a stored record (the alias
returned by `find`). -/
inductive Reachable : AddressBook → Prop where
  | empty : Reachable ⟨[]⟩
  | add_record (b : AddressBook) (r : Record) :
      Reachable b → ReachableRecord r → Reachable (b.add_record r)
  | del (b : AddressBook) (nm : String) (b' : AddressBook) :
      Reachable b → b.delete nm = .ok b' → Reachable b'
  | mutate (b : AddressBook) (k : String) (r r' : Record) :
      Reachable b → (k, r) ∈ b.data → RecordStep r r' →
      Reachable ⟨b.data.map fun kv => if kv = (k, r) then (k, r') else kv⟩

instance {ε α : Type} [DecidableEq ε] [DecidableEq α] : DecidableEq (Except ε α) := fun x y =>
  match x, y with
  | .ok a, .ok b => decidable_of_iff (a = b) (by simp)
  | .error a, .error b => decidable_of_iff (a = b) (by simp)
  | .ok _, .error _ => isFalse (by simp)
  | .error _, .ok _ => isFalse (by simp)

end Bot

namespace Bot

/-! ## Calendar lemmas -/

theorem daysInMonth_pos (y m : Nat) (h1 : 1 ≤ m) (h2 : m ≤ 12) :
    1 ≤ daysInMonth y m := by
  interval_cases m <;> cases hy : isLeap y <;> simp [daysInMonth, hy]

theorem daysInMonth_le_31 (y m : Nat) : daysInMonth y m ≤ 31 := by
  unfold daysInMonth
  split
  · omega
  · rcases m with _|_|_|_|_|_|_|_|_|_|_|_|_|m <;> simp

theorem daysBeforeMonth_succ (y m : Nat) (h1 : 1 ≤ m) (h2 : m ≤ 12) :
    daysBeforeMonth y (m + 1) = daysBeforeMonth y m + daysInMonth y m := by
  interval_cases m <;> cases hy : isLeap y <;>
    simp [daysBeforeMonth, daysInMonth, hy]

theorem isLeap_iff (y : Nat) :
    isLeap y = true ↔ (4 ∣ y ∧ (¬ 100 ∣ y ∨ 400 ∣ y)) := by
  unfold isLeap
  simp only [Bool.and_eq_true, Bool.or_eq_true, beq_iff_eq, bne_iff_ne, ne_eq]
  omega

theorem daysBeforeYear_succ (y : Nat) (hy : 1 ≤ y) :
    daysBeforeYear (y + 1) = daysBeforeYear y + 365 + (if isLeap y then 1 else 0) := by
  by_cases hl : isLeap y = true
  · rw [if_pos hl]
    rw [isLeap_iff] at hl
    unfold daysBeforeYear
    omega
  · rw [if_neg hl]
    have hnd : ¬ (4 ∣ y ∧ (¬ 100 ∣ y ∨ 400 ∣ y)) := fun hc => hl ((isLeap_iff y).mpr hc)
    push_neg at hnd
    unfold daysBeforeYear
    omega

end Bot

namespace Bot

theorem daysInMonth_12 (y : Nat) : daysInMonth y 12 = 31 := by
  cases hy : isLeap y <;> simp [daysInMonth, hy]

theorem daysBeforeMonth_12 (y : Nat) :
    daysBeforeMonth y 12 = 334 + (if isLeap y then 1 else 0) := by
  cases hy : isLeap y <;> simp [daysBeforeMonth, hy]

theorem nextDay_valid (d : Date) (h : d.Valid) : (nextDay d).Valid := by
  obtain ⟨hy, hm1, hm2, hd1, hd2⟩ := h
  unfold nextDay Date.Valid
  split
  · dsimp only
    omega
  · split
    · dsimp only
      have := daysInMonth_pos d.year (d.month + 1) (by omega) (by omega)
      omega
    · dsimp only
      have := daysInMonth_pos (d.year + 1) 1 (by omega) (by omega)
      omega

theorem toordinal_nextDay (d : Date) (h : d.Valid) :
    (nextDay d).toordinal = d.toordinal + 1 := by
  obtain ⟨hy, hm1, hm2, hd1, hd2⟩ := h
  unfold nextDay Date.toordinal
  split
  · dsimp only
    omega
  · rename_i hlt
    have hdm : d.day = daysInMonth d.year d.month := by omega
    split
    · rename_i hm12
      dsimp only
      rw [daysBeforeMonth_succ d.year d.month hm1 hm2]
      omega
    · rename_i hm12
      have hm : d.month = 12 := by omega
      have h31 : d.day = 31 := by rw [hdm, hm, daysInMonth_12]
      dsimp only
      rw [daysBeforeYear_succ d.year hy, hm, daysBeforeMonth_12]
      have h1 : daysBeforeMonth (d.year + 1) 1 = 0 := by
        simp [daysBeforeMonth]
      rw [h1]
      split <;> omega

theorem addDays_valid_toordinal (d : Date) (h : d.Valid) (n : Nat) :
    (addDays d n).Valid ∧ (addDays d n).toordinal = d.toordinal + n := by
  induction n with
  | zero => exact ⟨h, rfl⟩
  | succ k ih =>
    refine ⟨nextDay_valid _ ih.1, ?_⟩
    show (nextDay (addDays d k)).toordinal = d.toordinal + (k + 1)
    rw [toordinal_nextDay _ ih.1, ih.2, Nat.add_assoc]

theorem weekday_addDays (d : Date) (h : d.Valid) (n : Nat) :
    (addDays d n).weekday = (d.weekday + n) % 7 := by
  have := (addDays_valid_toordinal d h n).2
  unfold Date.weekday
  omega

theorem replaceYear_some (d : Date) (y : Nat) (d' : Date)
    (h : replaceYear d y = some d') :
    d'.Valid ∧ d' = ⟨y, d.month, d.day⟩ ∧ y ≤ 9999 := by
  unfold replaceYear at h
  split at h
  · rename_i hc
    cases h
    exact ⟨⟨hc.1, hc.2.2.1, hc.2.2.2.1, hc.2.2.2.2.1, hc.2.2.2.2.2⟩, rfl, hc.2.1⟩
  · cases h

end Bot

namespace Bot

/-! ## Parsing and rendering lemmas -/

theorem digitChar_isDigit : ∀ k < 10, (Nat.digitChar k).isDigit = true := by
  decide

theorem digitChar_ne_dot : ∀ k < 10, Nat.digitChar k ≠ '.' := by
  decide

theorem digitChar_toNat : ∀ k < 10, (Nat.digitChar k).toNat = 48 + k := by
  decide

theorem splitDot_no_dot (l : List Char) (h : '.' ∉ l) : splitDot l = [l] := by
  induction l with
  | nil => rfl
  | cons c cs ih =>
    have hc : ¬ c = '.' := fun hc => h (hc ▸ List.mem_cons_self c cs)
    have hcs : '.' ∉ cs := fun hm => h (List.mem_cons_of_mem c hm)
    simp [splitDot, hc, ih hcs]

theorem splitDot_append (l1 l2 : List Char) (h : '.' ∉ l1) :
    splitDot (l1 ++ '.' :: l2) = l1 :: splitDot l2 := by
  induction l1 with
  | nil => simp [splitDot]
  | cons c cs ih =>
    have hc : ¬ c = '.' := fun hc => h (hc ▸ List.mem_cons_self c cs)
    have hcs : '.' ∉ cs := fun hm => h (List.mem_cons_of_mem c hm)
    simp [splitDot, hc, ih hcs]

theorem digitsToNat_pad2 (n : Nat) (h : n ≤ 99) : digitsToNat (pad2 n) = n := by
  show 10 * (10 * 0 + ((Nat.digitChar (n / 10 % 10)).toNat - 48)) +
      ((Nat.digitChar (n % 10)).toNat - 48) = n
  rw [digitChar_toNat (n / 10 % 10) (by omega), digitChar_toNat (n % 10) (by omega)]
  omega

theorem digitsToNat_pad4 (n : Nat) (h : n ≤ 9999) : digitsToNat (pad4 n) = n := by
  show 10 * (10 * (10 * (10 * 0 + ((Nat.digitChar (n / 1000 % 10)).toNat - 48)) +
      ((Nat.digitChar (n / 100 % 10)).toNat - 48)) +
      ((Nat.digitChar (n / 10 % 10)).toNat - 48)) +
      ((Nat.digitChar (n % 10)).toNat - 48) = n
  rw [digitChar_toNat (n / 1000 % 10) (by omega), digitChar_toNat (n / 100 % 10) (by omega),
    digitChar_toNat (n / 10 % 10) (by omega), digitChar_toNat (n % 10) (by omega)]
  omega

theorem pad2_all_isDigit (n : Nat) : (pad2 n).all Char.isDigit = true := by
  have h1 := digitChar_isDigit (n / 10 % 10) (by omega)
  have h2 := digitChar_isDigit (n % 10) (by omega)
  simp [pad2, h1, h2]

theorem pad4_all_isDigit (n : Nat) : (pad4 n).all Char.isDigit = true := by
  have h1 := digitChar_isDigit (n / 1000 % 10) (by omega)
  have h2 := digitChar_isDigit (n / 100 % 10) (by omega)
  have h3 := digitChar_isDigit (n / 10 % 10) (by omega)
  have h4 := digitChar_isDigit (n % 10) (by omega)
  simp [pad4, h1, h2, h3, h4]

theorem dot_not_mem_pad2 (n : Nat) : '.' ∉ pad2 n := by
  have h1 := digitChar_ne_dot (n / 10 % 10) (by omega)
  have h2 := digitChar_ne_dot (n % 10) (by omega)
  simp [pad2]
  exact ⟨fun hc => h1 hc.symm, fun hc => h2 hc.symm⟩

theorem dot_not_mem_pad4 (n : Nat) : '.' ∉ pad4 n := by
  have h1 := digitChar_ne_dot (n / 1000 % 10) (by omega)
  have h2 := digitChar_ne_dot (n / 100 % 10) (by omega)
  have h3 := digitChar_ne_dot (n / 10 % 10) (by omega)
  have h4 := digitChar_ne_dot (n % 10) (by omega)
  simp [pad4]
  exact ⟨fun hc => h1 hc.symm, fun hc => h2 hc.symm,
    fun hc => h3 hc.symm, fun hc => h4 hc.symm⟩

theorem parseDay_pad2 (n : Nat) (h1 : 1 ≤ n) (h2 : n ≤ 31) :
    parseDay (pad2 n) = some n := by
  unfold parseDay
  rw [digitsToNat_pad2 n (by omega)]
  rw [if_pos ⟨by simp [pad2], by simp [pad2], pad2_all_isDigit n⟩, if_pos ⟨h1, h2⟩]

theorem parseMonth_pad2 (n : Nat) (h1 : 1 ≤ n) (h2 : n ≤ 12) :
    parseMonth (pad2 n) = some n := by
  unfold parseMonth
  rw [digitsToNat_pad2 n (by omega)]
  rw [if_pos ⟨by simp [pad2], by simp [pad2], pad2_all_isDigit n⟩, if_pos ⟨h1, h2⟩]

theorem parseYear_pad4 (n : Nat) (h : n ≤ 9999) :
    parseYear (pad4 n) = some n := by
  unfold parseYear
  rw [digitsToNat_pad4 n h]
  rw [if_pos ⟨by simp [pad4], pad4_all_isDigit n⟩]

/-- `strptime` inverts `strftime` on every constructible date. -/
theorem parseStrptime_renderDate (d : Date) (hv : d.Valid) (hy : d.year ≤ 9999) :
    parseStrptime (renderDate d) = some d := by
  obtain ⟨hy1, hm1, hm2, hd1, hd2⟩ := hv
  have hd31 : d.day ≤ 31 := le_trans hd2 (daysInMonth_le_31 _ _)
  unfold parseStrptime renderDate
  rw [show (String.mk (pad2 d.day ++ '.' :: (pad2 d.month ++ '.' :: pad4 d.year))).toList
      = pad2 d.day ++ '.' :: (pad2 d.month ++ '.' :: pad4 d.year) from rfl]
  rw [splitDot_append _ _ (dot_not_mem_pad2 d.day),
    splitDot_append _ _ (dot_not_mem_pad2 d.month),
    splitDot_no_dot _ (dot_not_mem_pad4 d.year)]
  dsimp only
  rw [parseDay_pad2 d.day hd1 hd31, parseMonth_pad2 d.month hm1 hm2,
    parseYear_pad4 d.year hy]
  dsimp only
  rw [if_pos ⟨hy1, hd2⟩]

end Bot

namespace Bot

/-! ## The spec-side description of `get_upcoming_birthdays` -/

theorem upcomingEntry_eq (today : Date) (rec : Record) :
    upcomingEntry today rec =
      match rec.birthday with
      | none => .ok none
      | some bd =>
        match specTarget today bd with
        | none => .error (.runtimeError "day is out of range for month")
        | some t =>
          .ok (if inWindow today t then some (rec.name, renderDate (rollWeekend t))
            else none) := by
  unfold upcomingEntry
  cases hbd : rec.birthday with
  | none => rfl
  | some bd =>
    show (match replaceYear bd today.year with
      | none => Except.error (BotError.runtimeError "day is out of range for month")
      | some b0 =>
        match (if dateLT b0 today then replaceYear b0 (today.year + 1) else some b0) with
        | none => Except.error (BotError.runtimeError "day is out of range for month")
        | some b1 =>
          if (0 : Int) ≤ (b1.toordinal : Int) - (today.toordinal : Int) ∧
              (b1.toordinal : Int) - (today.toordinal : Int) ≤ 7 then
            Except.ok (some (rec.name, renderDate
              (if b1.weekday = 5 ∨ b1.weekday = 6 then addDays b1 (7 - b1.weekday) else b1)))
          else Except.ok none) =
      match specTarget today bd with
      | none => Except.error (BotError.runtimeError "day is out of range for month")
      | some t =>
        Except.ok (if inWindow today t then some (rec.name, renderDate (rollWeekend t))
          else none)
    unfold specTarget
    cases h0 : replaceYear bd today.year with
    | none => rfl
    | some b0 =>
      show (match (if dateLT b0 today then replaceYear b0 (today.year + 1) else some b0) with
        | none => Except.error (BotError.runtimeError "day is out of range for month")
        | some b1 =>
          if (0 : Int) ≤ (b1.toordinal : Int) - (today.toordinal : Int) ∧
              (b1.toordinal : Int) - (today.toordinal : Int) ≤ 7 then
            Except.ok (some (rec.name, renderDate
              (if b1.weekday = 5 ∨ b1.weekday = 6 then addDays b1 (7 - b1.weekday) else b1)))
          else Except.ok none) =
        match (if dateLT b0 today then replaceYear b0 (today.year + 1) else some b0) with
        | none => Except.error (BotError.runtimeError "day is out of range for month")
        | some t =>
          Except.ok (if inWindow today t then some (rec.name, renderDate (rollWeekend t))
            else none)
      cases h1 : (if dateLT b0 today then replaceYear b0 (today.year + 1) else some b0) with
      | none => rfl
      | some b1 =>
        have hiff : ((0 : Int) ≤ (b1.toordinal : Int) - (today.toordinal : Int) ∧
            (b1.toordinal : Int) - (today.toordinal : Int) ≤ 7) ↔ inWindow today b1 := by
          unfold inWindow; omega
        show (if (0 : Int) ≤ (b1.toordinal : Int) - (today.toordinal : Int) ∧
            (b1.toordinal : Int) - (today.toordinal : Int) ≤ 7 then
          Except.ok (some (rec.name, renderDate
            (if b1.weekday = 5 ∨ b1.weekday = 6 then addDays b1 (7 - b1.weekday) else b1)))
          else Except.ok none) =
          Except.ok (if inWindow today b1 then some (rec.name, renderDate (rollWeekend b1))
            else none)
        rw [if_congr hiff rfl rfl]
        by_cases hw : inWindow today b1
        · rw [if_pos hw, if_pos hw]
          unfold rollWeekend
          rfl
        · rw [if_neg hw, if_neg hw]

theorem upcomingEntry_ok_specEmit (today : Date) (r : Record)
    (o : Option (String × String)) (h : upcomingEntry today r = .ok o) :
    o = specEmit today r := by
  rw [upcomingEntry_eq] at h
  unfold specEmit
  cases hbd : r.birthday with
  | none =>
    rw [hbd] at h
    cases h
    rfl
  | some bd =>
    rw [hbd] at h
    have h' : (match specTarget today bd with
      | none => Except.error (BotError.runtimeError "day is out of range for month")
      | some t =>
        Except.ok (if inWindow today t then some (r.name, renderDate (rollWeekend t))
          else none)) = Except.ok o := h
    show o = match specTarget today bd with
      | none => none
      | some t => if inWindow today t then some (r.name, renderDate (rollWeekend t)) else none
    cases hst : specTarget today bd with
    | none => rw [hst] at h'; cases h'
    | some t => rw [hst] at h'; cases h'; rfl

theorem collectUpcoming_ok (today : Date) (rs : List Record)
    (res : List (String × String)) (h : collectUpcoming today rs = .ok res) :
    res = rs.filterMap (specEmit today) ∧
      ∀ r ∈ rs, ∃ o, upcomingEntry today r = .ok o := by
  induction rs generalizing res with
  | nil =>
    cases h
    exact ⟨rfl, by simp⟩
  | cons r rs ih =>
    unfold collectUpcoming at h
    cases hE : upcomingEntry today r with
    | error e => rw [hE] at h; cases h
    | ok o =>
      rw [hE] at h
      cases hC : collectUpcoming today rs with
      | error e => rw [hC] at h; cases h
      | ok rest =>
        rw [hC] at h
        obtain ⟨hrest, hall⟩ := ih rest hC
        have ho := upcomingEntry_ok_specEmit today r o hE
        cases o with
        | none =>
          cases h
          refine ⟨?_, ?_⟩
          · rw [List.filterMap_cons_none ho.symm]
            exact hrest
          · intro r' hr'
            rcases List.mem_cons.mp hr' with h' | h'
            · exact ⟨none, h' ▸ hE⟩
            · exact hall r' h'
        | some e =>
          cases h
          refine ⟨?_, ?_⟩
          · rw [List.filterMap_cons_some ho.symm, hrest]
          · intro r' hr'
            rcases List.mem_cons.mp hr' with h' | h'
            · exact ⟨some e, h' ▸ hE⟩
            · exact hall r' h'

end Bot

namespace Bot

/-! ## List helper lemmas for the phone operations -/

theorem find_beq_some (l : List String) (v : String) (hv : v ∈ l) :
    l.find? (fun q => q == v) = some v := by
  cases h : l.find? (fun q => q == v) with
  | none =>
    have := List.find?_eq_none.mp h v hv
    simp at this
  | some a =>
    have := List.find?_some h
    simp at this
    rw [this]

theorem find_beq_none (l : List String) (v : String) (hv : v ∉ l) :
    l.find? (fun q => q == v) = none := by
  apply List.find?_eq_none.mpr
  intro x hx hc
  simp at hc
  exact hv (hc ▸ hx)

theorem findIdx?_beq_of_mem (l : List String) (v : String) (hv : v ∈ l) :
    l.findIdx? (fun q => q == v) = some (l.findIdx (fun q => q == v)) := by
  cases h : l.findIdx? (fun q => q == v) with
  | none =>
    have := List.findIdx?_eq_none_iff.mp h v hv
    simp at this
  | some i =>
    obtain ⟨hi, hfi⟩ := List.findIdx?_eq_some_iff_findIdx_eq.mp h
    rw [hfi]

theorem findIdx?_beq_of_not_mem (l : List String) (v : String) (hv : v ∉ l) :
    l.findIdx? (fun q => q == v) = none := by
  apply List.findIdx?_eq_none_iff.mpr
  intro x hx
  simp only [beq_eq_false_iff_ne, ne_eq]
  intro hc
  exact hv (hc ▸ hx)

theorem findIdx_beq_get (l : List String) (v : String) (hv : v ∈ l) :
    ∃ h : l.findIdx (fun q => q == v) < l.length,
      l.get ⟨l.findIdx (fun q => q == v), h⟩ = v := by
  have hlt : l.findIdx (fun q => q == v) < l.length :=
    List.findIdx_lt_length_of_exists ⟨v, hv, by simp⟩
  refine ⟨hlt, ?_⟩
  have := (List.findIdx_eq hlt).mp rfl
  have h1 := this.1
  simp at h1
  simpa using h1

theorem mem_of_mem_set (l : List String) (i : Nat) (v x : String)
    (h : x ∈ l.set i v) : x = v ∨ x ∈ l := by
  induction l generalizing i with
  | nil => simp at h
  | cons a t ih =>
    cases i with
    | zero =>
      rcases List.mem_cons.mp h with h' | h'
      · exact Or.inl h'
      · exact Or.inr (List.mem_cons_of_mem a h')
    | succ j =>
      rcases List.mem_cons.mp h with h' | h'
      · exact Or.inr (h' ▸ List.mem_cons_self a t)
      · rcases ih j h' with h'' | h''
        · exact Or.inl h''
        · exact Or.inr (List.mem_cons_of_mem a h'')

theorem nodup_set (l : List String) (i : Nat) (v : String)
    (hn : l.Nodup) (hv : v ∉ l) : (l.set i v).Nodup := by
  induction l generalizing i with
  | nil => simp
  | cons a t ih =>
    cases i with
    | zero =>
      simp only [List.set]
      exact List.nodup_cons.mpr
        ⟨fun hc => hv (List.mem_cons_of_mem a hc), (List.nodup_cons.mp hn).2⟩
    | succ j =>
      simp only [List.set]
      refine List.nodup_cons.mpr ⟨?_, ih j (List.nodup_cons.mp hn).2
        (fun hc => hv (List.mem_cons_of_mem a hc))⟩
      intro hc
      rcases mem_of_mem_set t j v a hc with h' | h'
      · exact hv (h' ▸ List.mem_cons_self a t)
      · exact (List.nodup_cons.mp hn).1 h'

theorem set_get_self (l : List String) (i : Nat) (v : String)
    (h : i < l.length) (hv : l.get ⟨i, h⟩ = v) : l.set i v = l := by
  induction l generalizing i with
  | nil => simp at h
  | cons a t ih =>
    cases i with
    | zero =>
      simp only [List.set]
      rw [← hv]
      rfl
    | succ j =>
      simp only [List.set]
      rw [ih j (by simpa using h) hv]

theorem not_mem_eraseIdx_of_nodup (l : List String) (i : Nat) (v : String)
    (h : i < l.length) (hn : l.Nodup) (hv : l.get ⟨i, h⟩ = v) :
    v ∉ l.eraseIdx i := by
  induction l generalizing i with
  | nil => simp at h
  | cons a t ih =>
    cases i with
    | zero =>
      show v ∉ t
      exact hv ▸ (List.nodup_cons.mp hn).1
    | succ j =>
      show v ∉ a :: t.eraseIdx j
      have hj : j < t.length := by simpa using h
      intro hc
      rcases List.mem_cons.mp hc with h' | h'
      · have hvt : v ∈ t := hv ▸ List.get_mem t j hj
        exact (List.nodup_cons.mp hn).1 (h' ▸ hvt)
      · exact ih j hj (List.nodup_cons.mp hn).2 hv h'

theorem mem_eraseIdx_of_ne (l : List String) (i : Nat) (x : String)
    (h : i < l.length) (hx : x ∈ l) (hne : x ≠ l.get ⟨i, h⟩) :
    x ∈ l.eraseIdx i := by
  induction l generalizing i with
  | nil => simp at h
  | cons a t ih =>
    cases i with
    | zero =>
      show x ∈ t
      rcases List.mem_cons.mp hx with h' | h'
      · exact absurd h' hne
      · exact h'
    | succ j =>
      show x ∈ a :: t.eraseIdx j
      rcases List.mem_cons.mp hx with h' | h'
      · exact h' ▸ List.mem_cons_self a _
      · exact List.mem_cons_of_mem a (ih j (by simpa using h) h' hne)

theorem count_eq_one_of_nodup_mem (l : List String) (v : String)
    (hn : l.Nodup) (hv : v ∈ l) : l.count v = 1 := by
  induction l with
  | nil => simp at hv
  | cons a t ih =>
    rw [List.count_cons]
    rcases List.mem_cons.mp hv with h' | h'
    · subst h'
      have hat : v ∉ t := (List.nodup_cons.mp hn).1
      simp [List.count_eq_zero.mpr hat]
    · have hav : ¬ a = v := by
        intro hc
        exact (List.nodup_cons.mp hn).1 (hc ▸ h')
      rw [ih (List.nodup_cons.mp hn).2 h']
      simp [hav]

end Bot

namespace Bot

/-! ## Phone validation and date-order lemmas -/

theorem mkPhone_ok_iff (s v : String) :
    mkPhone s = .ok v ↔ (v = s ∧ validPhone s) := by
  unfold mkPhone pyIsdigit validPhone
  split
  · rename_i h
    simp only [Bool.and_eq_true, Bool.not_eq_true', List.all_eq_true, beq_iff_eq] at h
    constructor
    · intro hok
      cases hok
      refine ⟨rfl, ?_, h.1.2⟩
      show s.toList.length = 10
      exact h.2
    · intro hv
      rw [hv.1]
  · rename_i h
    constructor
    · intro hok
      cases hok
    · intro hv
      exfalso
      apply h
      simp only [Bool.and_eq_true, Bool.not_eq_true', List.all_eq_true, beq_iff_eq]
      have hlen : s.toList.length = 10 := hv.2.1
      refine ⟨⟨?_, hv.2.2⟩, hlen⟩
      cases he : s.toList.isEmpty
      · rfl
      · exfalso
        rw [List.isEmpty_iff] at he
        have h0 : s.toList.length = 10 := hlen
        rw [he] at h0
        simp at h0
  
theorem mkPhone_ok_self (s : String) (h : validPhone s) : mkPhone s = .ok s :=
  (mkPhone_ok_iff s s).mpr ⟨rfl, h⟩

theorem mkPhone_error (s : String) (h : ¬ validPhone s) :
    mkPhone s = .error (.validationError "The phone must have 10 numbers.") := by
  unfold mkPhone
  split
  · rename_i hc
    exfalso
    apply h
    simp only [Bool.and_eq_true, beq_iff_eq] at hc
    unfold pyIsdigit at hc
    simp only [Bool.and_eq_true, List.all_eq_true] at hc
    exact ⟨hc.2, hc.1.2⟩
  · rfl

theorem not_dateLE_iff (a b : Date) : ¬ dateLE a b ↔ dateLT b a := by
  cases a with
  | mk ay am ad =>
    cases b with
    | mk by' bm bd =>
      unfold dateLE dateLT
      simp only [Date.mk.injEq]
      omega

/-! ## Association-list lemmas for the AddressBook -/

theorem find?_eraseP_self (l : List (String × Record)) (nm : String)
    (hnd : (l.map Prod.fst).Nodup) :
    (l.eraseP (fun kv => kv.1 == nm)).find? (fun kv => kv.1 == nm) = none := by
  induction l with
  | nil => rfl
  | cons kv t ih =>
    rw [List.eraseP_cons]
    have hnd' : (t.map Prod.fst).Nodup := (List.nodup_cons.mp (by simpa using hnd)).2
    cases hp : (kv.1 == nm) with
    | true =>
      rw [cond_true]
      apply List.find?_eq_none.mpr
      intro x hx hc
      have hkv : kv.1 = nm := by simpa using hp
      have hx1 : x.1 = nm := by simpa using hc
      have hni : kv.1 ∉ t.map Prod.fst := (List.nodup_cons.mp (by simpa using hnd)).1
      exact hni (hkv ▸ hx1 ▸ List.mem_map.mpr ⟨x, hx, rfl⟩)
    | false =>
      rw [cond_false, List.find?_cons_of_neg _ (by simp [hp])]
      exact ih hnd'

theorem find?_eraseP_other (l : List (String × Record)) (nm k : String)
    (hk : k ≠ nm) :
    (l.eraseP (fun kv => kv.1 == nm)).find? (fun kv => kv.1 == k)
      = l.find? (fun kv => kv.1 == k) := by
  induction l with
  | nil => rfl
  | cons kv t ih =>
    rw [List.eraseP_cons]
    cases hp : (kv.1 == nm) with
    | true =>
      rw [cond_true]
      have hkv : kv.1 = nm := by simpa using hp
      rw [List.find?_cons_of_neg _ (by simp [hkv]; exact fun hc => hk hc.symm)]
    | false =>
      rw [cond_false]
      cases hq : (kv.1 == k) with
      | true =>
        rw [@List.find?_cons_of_pos _ (fun kv => kv.1 == k) kv
            (List.eraseP (fun kv => kv.1 == nm) t) hq,
          @List.find?_cons_of_pos _ (fun kv => kv.1 == k) kv t hq]
      | false =>
        rw [@List.find?_cons_of_neg _ (fun kv => kv.1 == k) kv
            (List.eraseP (fun kv => kv.1 == nm) t) (by simp [hq]),
          @List.find?_cons_of_neg _ (fun kv => kv.1 == k) kv t (by simp [hq])]
        exact ih

end Bot

namespace Bot

/-! ## Characterization of the Record operations -/

theorem findIdx?_beq_some_get (l : List String) (v : String) (i : Nat)
    (h : l.findIdx? (fun q => q == v) = some i) :
    ∃ hlt : i < l.length, l.get ⟨i, hlt⟩ = v := by
  obtain ⟨hlt, hfi⟩ := List.findIdx?_eq_some_iff_findIdx_eq.mp h
  have hget := (List.findIdx_eq hlt).mp hfi
  refine ⟨hlt, ?_⟩
  have h1 := hget.1
  simpa using h1

theorem find_phone_ok (r : Record) (p : String) (hp : validPhone p) :
    r.find_phone p = .ok (r.phones.find? (fun q => q == p)) := by
  unfold Record.find_phone
  rw [mkPhone_ok_self p hp]
  rfl

theorem find_phone_ok_inv (r : Record) (p : String) (found : Option String)
    (h : r.find_phone p = .ok found) :
    validPhone p ∧ found = r.phones.find? (fun q => q == p) := by
  unfold Record.find_phone at h
  cases hmk : mkPhone p with
  | error e => rw [hmk] at h; cases h
  | ok v =>
    obtain ⟨hv, hvp⟩ := (mkPhone_ok_iff p v).mp hmk
    rw [hmk] at h
    cases h
    exact ⟨hvp, by rw [hv]⟩

theorem add_phone_mem (r : Record) (p : String) (hp : validPhone p)
    (hmem : p ∈ r.phones) : r.add_phone p = .ok r := by
  unfold Record.add_phone
  rw [find_phone_ok r p hp, find_beq_some _ _ hmem]

theorem add_phone_not_mem (r : Record) (p : String) (hp : validPhone p)
    (hmem : p ∉ r.phones) :
    r.add_phone p = .ok { r with phones := r.phones ++ [p] } := by
  unfold Record.add_phone
  rw [find_phone_ok r p hp, find_beq_none _ _ hmem, mkPhone_ok_self p hp]

theorem remove_phone_eq (r : Record) (p : String) (hp : validPhone p) :
    r.remove_phone p =
      match r.phones.findIdx? (fun q => q == p) with
      | none => .error .notFoundError
      | some i => .ok { r with phones := r.phones.eraseIdx i } := by
  unfold Record.remove_phone
  rw [mkPhone_ok_self p hp]

end Bot

namespace Bot

/-! ## The reachable-state invariant (keys, phone validity, dedup) -/

theorem make_ok_inv (name : String) (p : Option String) (r : Record)
    (h : Record.make name p = .ok r) :
    RecordInv r ∧ r.name = name := by
  unfold Record.make at h
  cases p with
  | none =>
    cases h
    exact ⟨⟨by simp, List.nodup_nil⟩, rfl⟩
  | some q =>
    have h' : (if q = "" then Except.ok (⟨name, [], none⟩ : Record)
        else Except.map (fun v => (⟨name, [v], none⟩ : Record)) (mkPhone q))
        = Except.ok r := h
    by_cases hq : q = ""
    · rw [if_pos hq] at h'
      cases h'
      exact ⟨⟨by simp, List.nodup_nil⟩, rfl⟩
    · rw [if_neg hq] at h'
      cases hmk : mkPhone q with
      | error e => rw [hmk] at h'; cases h'
      | ok v =>
        obtain ⟨hv, hvp⟩ := (mkPhone_ok_iff q v).mp hmk
        rw [hmk] at h'
        cases h'
        refine ⟨⟨?_, List.nodup_singleton v⟩, rfl⟩
        intro x hx
        rw [List.mem_singleton.mp hx, hv]
        exact hvp

theorem add_phone_ok_inv (r : Record) (p : String) (r' : Record)
    (h : r.add_phone p = .ok r') (hinv : RecordInv r) :
    RecordInv r' ∧ r'.name = r.name := by
  unfold Record.add_phone at h
  cases hfp : r.find_phone p with
  | error e => rw [hfp] at h; cases h
  | ok found =>
    obtain ⟨hvp, hfound⟩ := find_phone_ok_inv r p found hfp
    rw [hfp] at h
    cases found with
    | some v =>
      cases h
      exact ⟨hinv, rfl⟩
    | none =>
      rw [mkPhone_ok_self p hvp] at h
      cases h
      have hnp : p ∉ r.phones := by
        intro hc
        rw [find_beq_some _ _ hc] at hfound
        cases hfound
      refine ⟨⟨?_, ?_⟩, rfl⟩
      · intro x hx
        rcases List.mem_append.mp hx with h' | h'
        · exact hinv.1 x h'
        · rw [List.mem_singleton.mp h']
          exact hvp
      · rw [List.nodup_append]
        exact ⟨hinv.2, List.nodup_singleton p,
          fun x hx hx1 => hnp ((List.mem_singleton.mp hx1) ▸ hx)⟩

theorem remove_phone_ok_inv (r : Record) (p : String) (r' : Record)
    (h : r.remove_phone p = .ok r') (hinv : RecordInv r) :
    RecordInv r' ∧ r'.name = r.name := by
  unfold Record.remove_phone at h
  cases hmk : mkPhone p with
  | error e => rw [hmk] at h; cases h
  | ok v =>
    rw [hmk] at h
    have h' : (match r.phones.findIdx? (fun q => q == v) with
        | none => Except.error BotError.notFoundError
        | some i => Except.ok { r with phones := r.phones.eraseIdx i })
        = Except.ok r' := h
    cases hidx : r.phones.findIdx? (fun q => q == v) with
    | none => rw [hidx] at h'; cases h'
    | some i =>
      rw [hidx] at h'
      cases h'
      have hsub := List.eraseIdx_sublist r.phones i
      exact ⟨⟨fun x hx => hinv.1 x (hsub.subset hx), hsub.nodup hinv.2⟩, rfl⟩

theorem edit_phone_ok_inv (r : Record) (old new : String) (r' : Record)
    (h : r.edit_phone old new = .ok r') (hinv : RecordInv r) :
    RecordInv r' ∧ r'.name = r.name := by
  unfold Record.edit_phone at h
  cases hmk : mkPhone old with
  | error e => rw [hmk] at h; cases h
  | ok oldV =>
    obtain ⟨hov, hovp⟩ := (mkPhone_ok_iff old oldV).mp hmk
    rw [hmk] at h
    have h1 : (match r.phones.findIdx? (fun q => q == oldV) with
        | none => Except.error BotError.notFoundError
        | some i =>
          match r.find_phone new with
          | .error e => Except.error e
          | .ok found =>
            if found.isSome && old != new then
              r.remove_phone old
            else
              match mkPhone new with
              | .error e => Except.error e
              | .ok v => Except.ok { r with phones := r.phones.set i v })
        = Except.ok r' := h
    rw [hov] at h1
    cases hidx : r.phones.findIdx? (fun q => q == old) with
    | none => rw [hidx] at h1; cases h1
    | some i =>
      rw [hidx] at h1
      obtain ⟨hlt, hget⟩ := findIdx?_beq_some_get r.phones old i hidx
      have h2 : (match r.find_phone new with
          | .error e => Except.error e
          | .ok found =>
            if found.isSome && old != new then
              r.remove_phone old
            else
              match mkPhone new with
              | .error e => Except.error e
              | .ok v => Except.ok { r with phones := r.phones.set i v })
          = Except.ok r' := h1
      cases hfp : r.find_phone new with
      | error e => rw [hfp] at h2; cases h2
      | ok found =>
        obtain ⟨hnvp, hfound⟩ := find_phone_ok_inv r new found hfp
        rw [hfp] at h2
        have h3 : (if found.isSome && old != new then
              r.remove_phone old
            else
              match mkPhone new with
              | .error e => Except.error e
              | .ok v => Except.ok { r with phones := r.phones.set i v })
            = Except.ok r' := h2
        by_cases hcond : (found.isSome && old != new) = true
        · rw [if_pos hcond] at h3
          exact remove_phone_ok_inv r old r' h3 hinv
        · rw [if_neg hcond] at h3
          rw [mkPhone_ok_self new hnvp] at h3
          cases h3
          refine ⟨⟨?_, ?_⟩, rfl⟩
          · intro x hx
            rcases mem_of_mem_set r.phones i new x hx with h' | h'
            · exact h' ▸ hnvp
            · exact hinv.1 x h'
          · cases hfnd : r.phones.find? (fun q => q == new) with
            | none =>
              have hnmem : new ∉ r.phones := by
                intro hc
                rw [find_beq_some _ _ hc] at hfnd
                cases hfnd
              exact nodup_set r.phones i new hinv.2 hnmem
            | some v =>
              have hoe : old = new := by
                by_contra hne
                apply hcond
                rw [hfound, hfnd]
                simp [bne_iff_ne.mpr hne]
              rw [set_get_self r.phones i new hlt (hoe ▸ hget)]
              exact hinv.2

theorem add_birthday_ok_inv (today : Date) (r : Record) (s : String) (r' : Record)
    (h : Record.add_birthday today r s = .ok r') (hinv : RecordInv r) :
    RecordInv r' ∧ r'.name = r.name := by
  unfold Record.add_birthday at h
  cases hmk : mkBirthday today s with
  | error e => rw [hmk] at h; cases h
  | ok bd =>
    rw [hmk] at h
    cases h
    exact ⟨hinv, rfl⟩

theorem recordStep_inv (r r' : Record) (h : RecordStep r r') (hinv : RecordInv r) :
    RecordInv r' ∧ r'.name = r.name := by
  cases h with
  | add_phone r p r' hp => exact add_phone_ok_inv r p r' hp hinv
  | remove_phone r p r' hp => exact remove_phone_ok_inv r p r' hp hinv
  | edit_phone r old new r' hp => exact edit_phone_ok_inv r old new r' hp hinv
  | add_birthday today r s r' hp => exact add_birthday_ok_inv today r s r' hp hinv

theorem reachableRecord_inv (r : Record) (h : ReachableRecord r) : RecordInv r := by
  induction h with
  | make name p r hm => exact (make_ok_inv name p r hm).1
  | step r r' _ hs ih => exact (recordStep_inv r r' hs ih).1

theorem reachable_bookInv (b : AddressBook) (h : Reachable b) : BookInv b := by
  induction h with
  | empty => intro kv hkv; cases hkv
  | add_record b r _ hr ih =>
    intro kv hkv
    unfold AddressBook.add_record at hkv
    split at hkv
    · obtain ⟨kv0, hkv0, hkv0e⟩ := List.mem_map.mp hkv
      by_cases hk : (kv0.1 == r.name) = true
      · rw [if_pos hk] at hkv0e
        rw [← hkv0e]
        exact ⟨by simpa using hk, reachableRecord_inv r hr⟩
      · rw [if_neg hk] at hkv0e
        exact hkv0e ▸ ih kv0 hkv0
    · rcases List.mem_append.mp hkv with h' | h'
      · exact ih kv h'
      · rw [List.mem_singleton.mp h']
        exact ⟨rfl, reachableRecord_inv r hr⟩
  | del b nm b' _ hd ih =>
    intro kv hkv
    unfold AddressBook.delete at hd
    split at hd
    · cases hd
      exact ih kv ((List.eraseP_sublist b.data).subset hkv)
    · cases hd
  | mutate b k r r' _ hmem hs ih =>
    intro kv hkv
    obtain ⟨kv0, hkv0, hkv0e⟩ := List.mem_map.mp hkv
    by_cases hk : kv0 = (k, r)
    · rw [if_pos hk] at hkv0e
      obtain ⟨hkey, hrinv⟩ := ih (k, r) hmem
      obtain ⟨hrinv', hname⟩ := recordStep_inv r r' hs hrinv
      rw [← hkv0e]
      exact ⟨by rw [hname]; exact hkey, hrinv'⟩
    · rw [if_neg hk] at hkv0e
      exact hkv0e ▸ ih kv0 hkv0

end Bot

namespace Bot

/-! ## Remaining shared helpers -/

theorem mkBirthday_spec (today : Date) (s : String) :
    (parseStrptime s = none →
      mkBirthday today s = .error (.dateFormatError "Invalid date format. Use DD.MM.YYYY")) ∧
    (∀ d, parseStrptime s = some d → dateLE d today → mkBirthday today s = .ok d) ∧
    (∀ d, parseStrptime s = some d → dateLT today d →
      mkBirthday today s = .error (.validationError "Incorrect date.")) := by
  refine ⟨?_, ?_, ?_⟩
  · intro hp
    unfold mkBirthday
    rw [hp]
  · intro d hp hle
    unfold mkBirthday
    rw [hp]
    show (if dateLE d today then Except.ok d
      else Except.error (BotError.validationError "Incorrect date.")) = Except.ok d
    rw [if_pos hle]
  · intro d hp hlt
    unfold mkBirthday
    rw [hp]
    show (if dateLE d today then Except.ok d
      else Except.error (BotError.validationError "Incorrect date."))
      = Except.error (BotError.validationError "Incorrect date.")
    rw [if_neg ((not_dateLE_iff d today).mpr hlt)]

theorem edit_phone_eq (r : Record) (old new : String)
    (hold : validPhone old) (hnew : validPhone new) :
    r.edit_phone old new =
      match r.phones.findIdx? (fun q => q == old) with
      | none => .error .notFoundError
      | some i =>
        if (r.phones.find? (fun q => q == new)).isSome && old != new then
          r.remove_phone old
        else .ok { r with phones := r.phones.set i new } := by
  unfold Record.edit_phone
  rw [mkPhone_ok_self old hold]
  show (match r.phones.findIdx? (fun q => q == old) with
    | none => Except.error BotError.notFoundError
    | some i =>
      match r.find_phone new with
      | .error e => Except.error e
      | .ok found =>
        if found.isSome && old != new then
          r.remove_phone old
        else
          match mkPhone new with
          | .error e => Except.error e
          | .ok v => Except.ok { r with phones := r.phones.set i v }) = _
  cases hidx : r.phones.findIdx? (fun q => q == old) with
  | none => rfl
  | some i =>
    rw [find_phone_ok r new hnew]
    show (if (r.phones.find? (fun q => q == new)).isSome && old != new then
        r.remove_phone old
      else
        match mkPhone new with
        | .error e => Except.error e
        | .ok v => Except.ok { r with phones := r.phones.set i v }) =
      (if (r.phones.find? (fun q => q == new)).isSome && old != new then
        r.remove_phone old
      else Except.ok { r with phones := r.phones.set i new })
    by_cases hcond : ((r.phones.find? (fun q => q == new)).isSome && old != new) = true
    · rw [if_pos hcond, if_pos hcond]
    · rw [if_neg hcond, if_neg hcond, mkPhone_ok_self new hnew]

theorem specEmit_some (today : Date) (r : Record) (e : String × String)
    (h : specEmit today r = some e) :
    ∃ bd t, r.birthday = some bd ∧ specTarget today bd = some t ∧ inWindow today t ∧
      e = (r.name, renderDate (rollWeekend t)) := by
  unfold specEmit at h
  cases hbd : r.birthday with
  | none => rw [hbd] at h; cases h
  | some bd =>
    rw [hbd] at h
    have h1 : (match specTarget today bd with
      | none => none
      | some t =>
        if inWindow today t then some (r.name, renderDate (rollWeekend t)) else none)
      = some e := h
    cases hst : specTarget today bd with
    | none => rw [hst] at h1; cases h1
    | some t =>
      rw [hst] at h1
      have h2 : (if inWindow today t then some (r.name, renderDate (rollWeekend t))
          else none) = some e := h1
      by_cases hw : inWindow today t
      · rw [if_pos hw] at h2
        cases h2
        exact ⟨bd, t, rfl, hst, hw, rfl⟩
      · rw [if_neg hw] at h2
        cases h2

theorem specEmit_eq_some (today : Date) (r : Record) (bd t : Date)
    (hbd : r.birthday = some bd) (ht : specTarget today bd = some t)
    (hw : inWindow today t) :
    specEmit today r = some (r.name, renderDate (rollWeekend t)) := by
  unfold specEmit
  rw [hbd]
  show (match specTarget today bd with
    | none => none
    | some t =>
      if inWindow today t then some (r.name, renderDate (rollWeekend t)) else none)
    = some (r.name, renderDate (rollWeekend t))
  rw [ht]
  show (if inWindow today t then some (r.name, renderDate (rollWeekend t)) else none)
    = some (r.name, renderDate (rollWeekend t))
  rw [if_pos hw]

end Bot

namespace Bot

/-! ## The claims -/

/-- Claim C6: `Phone(value)` construction succeeds if and only if `value`
consists of exactly 10 digit characters; for every other string it fails
with `ValidationError("The phone must have 10 numbers.")`. -/
theorem phone_accepts_iff (s : String) :
    ((∃ v, mkPhone s = .ok v) ↔
      (s.length = 10 ∧ ∀ c ∈ s.toList, c.isDigit = true)) ∧
    (¬ (s.length = 10 ∧ ∀ c ∈ s.toList, c.isDigit = true) →
      mkPhone s = .error (.validationError "The phone must have 10 numbers.")) := by
  constructor
  · constructor
    · rintro ⟨v, hv⟩
      exact ((mkPhone_ok_iff s v).mp hv).2
    · intro h
      exact ⟨s, mkPhone_ok_self s h⟩
  · intro h
    exact mkPhone_error s h

/-- Witness for C6: a 10-digit string is accepted, a string with a letter
in it is rejected with the `ValidationError`. -/
theorem phone_accepts_iff_witness :
    (∃ v, mkPhone "1234567890" = .ok v) ∧
    mkPhone "123456789a" = .error (.validationError "The phone must have 10 numbers.") :=
  ⟨(phone_accepts_iff "1234567890").1.mpr (by decide),
   (phone_accepts_iff "123456789a").2 (by decide)⟩

/-- Counterexample to C4 as stated: the claim says a parsed date equal to
today fails with `ValidationError`, but `Birthday.__validation` accepts
`birthday.date() <= now.date()`, so a birthday falling exactly on today is
accepted.  With the clock at 2024-06-15, the string "15.06.2024" parses to
today and construction succeeds. -/
theorem birthday_today_accepted_counterexample :
    mkBirthday ⟨2024, 6, 15⟩ "15.06.2024" = .ok ⟨2024, 6, 15⟩ ∧
    mkBirthday ⟨2024, 6, 15⟩ "15.06.2024"
      ≠ .error (.validationError "Incorrect date.") := by
  constructor
  · decide
  · decide

/-- Claim C4 (amended): `Birthday(value)` parses `value` against the
`DD.MM.YYYY` (`%d.%m.%Y`) pattern and fails with the date-format error when
the string is unparsable; when the parse succeeds the result is accepted
iff the parsed date is `<=` today, and it fails with `ValidationError`
exactly when the parsed date is strictly in the future (a date equal to
today is accepted, unlike the claim's original wording). -/
theorem birthday_cases (today : Date) (s : String) :
    (parseStrptime s = none →
      mkBirthday today s = .error (.dateFormatError "Invalid date format. Use DD.MM.YYYY")) ∧
    (∀ d, parseStrptime s = some d → dateLE d today → mkBirthday today s = .ok d) ∧
    (∀ d, parseStrptime s = some d → dateLT today d →
      mkBirthday today s = .error (.validationError "Incorrect date.")) :=
  mkBirthday_spec today s

/-- Witness for C4: a past date is accepted, a malformed string gets the
date-format error, a strictly future date gets the `ValidationError`. -/
theorem birthday_cases_witness :
    mkBirthday ⟨2024, 6, 15⟩ "31.12.2020" = .ok ⟨2020, 12, 31⟩ ∧
    mkBirthday ⟨2024, 6, 15⟩ "2020-12-31"
      = .error (.dateFormatError "Invalid date format. Use DD.MM.YYYY") ∧
    mkBirthday ⟨2024, 6, 15⟩ "16.06.2024"
      = .error (.validationError "Incorrect date.") :=
  ⟨(birthday_cases ⟨2024, 6, 15⟩ "31.12.2020").2.1 ⟨2020, 12, 31⟩ (by decide) (by decide),
   (birthday_cases ⟨2024, 6, 15⟩ "2020-12-31").1 (by decide),
   (birthday_cases ⟨2024, 6, 15⟩ "16.06.2024").2.2 ⟨2024, 6, 16⟩ (by decide) (by decide)⟩

/-- Claim C5: for every constructible date `d` (hence every valid
`DD.MM.YYYY` string `renderDate d`), when `d <= today` the `Birthday`
constructor succeeds on the rendered string, stores exactly `d`, and
rendering the stored value yields the same string back; when `d > today`
it fails with `ValidationError`. -/
theorem birthday_roundtrip (today d : Date) (hv : d.Valid) (hy : d.year ≤ 9999) :
    (dateLE d today →
      mkBirthday today (renderDate d) = .ok d ∧
      ∀ bd, mkBirthday today (renderDate d) = .ok bd → renderDate bd = renderDate d) ∧
    (dateLT today d →
      mkBirthday today (renderDate d) = .error (.validationError "Incorrect date.")) := by
  have hp := parseStrptime_renderDate d hv hy
  constructor
  · intro hle
    have hok := (mkBirthday_spec today (renderDate d)).2.1 d hp hle
    refine ⟨hok, fun bd hbd => ?_⟩
    rw [hok] at hbd
    cases hbd
    rfl
  · intro hlt
    exact (mkBirthday_spec today (renderDate d)).2.2 d hp hlt

/-- Witness for C5: the date 2020-12-31 renders to "31.12.2020", which
round-trips; the date 2024-06-16 is in the future of 2024-06-15 and is
rejected. -/
theorem birthday_roundtrip_witness :
    mkBirthday ⟨2024, 6, 15⟩ (renderDate ⟨2020, 12, 31⟩) = .ok ⟨2020, 12, 31⟩ ∧
    mkBirthday ⟨2024, 6, 15⟩ (renderDate ⟨2024, 6, 16⟩)
      = .error (.validationError "Incorrect date.") :=
  ⟨((birthday_roundtrip ⟨2024, 6, 15⟩ ⟨2020, 12, 31⟩ (by decide) (by decide)).1
      (by decide)).1,
   (birthday_roundtrip ⟨2024, 6, 15⟩ ⟨2024, 6, 16⟩ (by decide) (by decide)).2
      (by decide)⟩

end Bot

namespace Bot

/-- Claim C8: `add_phone` is idempotent under duplicate values: adding a
phone whose value is already present leaves the phones list unchanged, so
adding the same phone twice to a fresh record yields a one-entry list. -/
theorem add_phone_idempotent (p : String) (hp : validPhone p) :
    (∀ r : Record, p ∈ r.phones → r.add_phone p = .ok r) ∧
    (∀ name r₀, Record.make name none = .ok r₀ →
      ∃ r₁, r₀.add_phone p = .ok r₁ ∧ r₁.phones = [p] ∧ r₁.add_phone p = .ok r₁) := by
  constructor
  · intro r hmem
    exact add_phone_mem r p hp hmem
  · intro name r₀ hmk
    have hr₀ : r₀ = ⟨name, [], none⟩ := by
      unfold Record.make at hmk
      cases hmk
      rfl
    subst hr₀
    refine ⟨⟨name, [p], none⟩, ?_, rfl, ?_⟩
    · have h := add_phone_not_mem ⟨name, [], none⟩ p hp (by simp)
      simpa using h
    · exact add_phone_mem ⟨name, [p], none⟩ p hp (by simp)

/-- Witness for C8 at the phone "1234567890" on a fresh record "Ann". -/
theorem add_phone_idempotent_witness :
    Record.add_phone ⟨"Ann", [], none⟩ "1234567890" = .ok ⟨"Ann", ["1234567890"], none⟩ ∧
    Record.add_phone ⟨"Ann", ["1234567890"], none⟩ "1234567890"
      = .ok ⟨"Ann", ["1234567890"], none⟩ := by
  obtain ⟨r₁, h1, h2, h3⟩ :=
    (add_phone_idempotent "1234567890" (by decide)).2 "Ann" ⟨"Ann", [], none⟩ rfl
  have he : Record.add_phone ⟨"Ann", [], none⟩ "1234567890"
      = .ok ⟨"Ann", ["1234567890"], none⟩ := by decide
  rw [he] at h1
  cases h1
  exact ⟨he, h3⟩

/-- Claim C7: `edit_phone(old, new)` with both values valid and the record
deduplicated (the reachable-state invariant): when both are present and
`old ≠ new` the result drops `old` and keeps exactly one entry equal to
`new`; when `new` is absent the entry at `old`'s index is overwritten with
`new`; when `old` is absent the call fails (`list.index` raises, the
spec's `NotFoundError`). -/
theorem edit_phone_spec (r : Record) (old new : String)
    (hold : validPhone old) (hnew : validPhone new) (hnd : r.phones.Nodup) :
    (old ∈ r.phones → new ∈ r.phones → old ≠ new →
      ∃ r', r.edit_phone old new = .ok r' ∧ old ∉ r'.phones ∧
        r'.phones.count new = 1) ∧
    (old ∈ r.phones → new ∉ r.phones →
      r.edit_phone old new
        = .ok { r with phones :=
            r.phones.set (r.phones.findIdx (fun q => q == old)) new }) ∧
    (old ∉ r.phones → r.edit_phone old new = .error .notFoundError) := by
  refine ⟨?_, ?_, ?_⟩
  · intro hom hnm hne
    obtain ⟨hlt, hget⟩ := findIdx_beq_get r.phones old hom
    have hcond : ((r.phones.find? (fun q => q == new)).isSome && old != new) = true := by
      rw [find_beq_some _ _ hnm]
      simp [bne_iff_ne.mpr hne]
    have hedit : r.edit_phone old new = r.remove_phone old := by
      rw [edit_phone_eq r old new hold hnew, findIdx?_beq_of_mem _ _ hom]
      exact if_pos hcond
    have hrem : r.remove_phone old
        = .ok { r with phones :=
            r.phones.eraseIdx (r.phones.findIdx (fun q => q == old)) } := by
      rw [remove_phone_eq r old hold, findIdx?_beq_of_mem _ _ hom]
    refine ⟨_, hedit.trans hrem, ?_, ?_⟩
    · exact not_mem_eraseIdx_of_nodup r.phones _ old hlt hnd hget
    · have hmemE : new ∈ r.phones.eraseIdx (r.phones.findIdx (fun q => q == old)) := by
        apply mem_eraseIdx_of_ne r.phones _ new hlt hnm
        intro hc
        rw [hget] at hc
        exact hne hc.symm
      exact count_eq_one_of_nodup_mem _ new
        ((List.eraseIdx_sublist r.phones _).nodup hnd) hmemE
  · intro hom hnm
    rw [edit_phone_eq r old new hold hnew, findIdx?_beq_of_mem _ _ hom]
    have hcondf : ¬ (((r.phones.find? (fun q => q == new)).isSome && old != new) = true) := by
      rw [find_beq_none _ _ hnm]
      simp
    exact if_neg hcondf
  · intro hom
    rw [edit_phone_eq r old new hold hnew, findIdx?_beq_of_not_mem _ _ hom]


/-- Witness for C7: on the record with phones `["1111111111", "2222222222"]`,
editing the first into the (already present) second collapses the list to
one entry; editing the first into a fresh value replaces it in place;
editing an absent value fails. -/
theorem edit_phone_spec_witness :
    Record.edit_phone ⟨"A", ["1111111111", "2222222222"], none⟩ "1111111111" "2222222222"
      = .ok ⟨"A", ["2222222222"], none⟩ ∧
    Record.edit_phone ⟨"A", ["1111111111", "2222222222"], none⟩ "1111111111" "3333333333"
      = .ok ⟨"A", ["3333333333", "2222222222"], none⟩ ∧
    Record.edit_phone ⟨"A", ["1111111111", "2222222222"], none⟩ "4444444444" "2222222222"
      = .error .notFoundError := by
  refine ⟨?_, ?_, ?_⟩
  · obtain ⟨r', h1, h2, h3⟩ :=
      (edit_phone_spec ⟨"A", ["1111111111", "2222222222"], none⟩ "1111111111" "2222222222"
        (by decide) (by decide) (by decide)).1 (by decide) (by decide) (by decide)
    have he : Record.edit_phone ⟨"A", ["1111111111", "2222222222"], none⟩
        "1111111111" "2222222222" = .ok ⟨"A", ["2222222222"], none⟩ := by decide
    exact he
  · have h := (edit_phone_spec ⟨"A", ["1111111111", "2222222222"], none⟩
      "1111111111" "3333333333" (by decide) (by decide) (by decide)).2.1
      (by decide) (by decide)
    exact h.trans (by decide)
  · exact (edit_phone_spec ⟨"A", ["1111111111", "2222222222"], none⟩
      "4444444444" "2222222222" (by decide) (by decide) (by decide)).2.2 (by decide)

/-- Claim C9: for a book whose keys are unique (always true of a Python
dict): `find` on an absent name returns `none` without failing (it is a
total function in the model), while `delete` on an absent name fails with
`NotFoundError`, returning no modified book (the input book is untouched);
`delete` on a present name removes exactly that entry, leaving lookups of
every other name unchanged. -/
theorem find_delete_spec (b : AddressBook) (nm : String)
    (hnd : (b.data.map Prod.fst).Nodup) :
    (b.find nm = none → b.delete nm = .error .notFoundError) ∧
    (∀ r, b.find nm = some r →
      ∃ b', b.delete nm = .ok b' ∧
        b'.data = b.data.eraseP (fun kv => kv.1 == nm) ∧
        b'.find nm = none ∧
        ∀ k, k ≠ nm → b'.find k = b.find k) := by
  constructor
  · intro hf
    have h1 : b.data.find? (fun kv => kv.1 == nm) = none := Option.map_eq_none'.mp hf
    have h2 := List.find?_eq_none.mp h1
    unfold AddressBook.delete
    rw [if_neg]
    intro hc
    obtain ⟨kv, hkv, hp⟩ := List.any_eq_true.mp hc
    exact h2 kv hkv hp
  · intro r hf
    obtain ⟨kv, hkv, hkv2⟩ := Option.map_eq_some'.mp hf
    have hmem := List.mem_of_find?_eq_some hkv
    have hp := List.find?_some hkv
    unfold AddressBook.delete
    rw [if_pos (List.any_eq_true.mpr ⟨kv, hmem, hp⟩)]
    refine ⟨⟨b.data.eraseP (fun kv => kv.1 == nm)⟩, rfl, rfl, ?_, ?_⟩
    · unfold AddressBook.find
      rw [find?_eraseP_self b.data nm hnd]
      rfl
    · intro k hk
      unfold AddressBook.find
      rw [find?_eraseP_other b.data nm k hk]

/-- Witness for C9 on a two-entry book: deleting "Ann" removes exactly her
entry and leaves "Bob" findable; deleting the absent "Zed" fails. -/
theorem find_delete_spec_witness :
    AddressBook.delete ⟨[("Ann", ⟨"Ann", [], none⟩), ("Bob", ⟨"Bob", [], none⟩)]⟩ "Zed"
      = .error .notFoundError ∧
    AddressBook.delete ⟨[("Ann", ⟨"Ann", [], none⟩), ("Bob", ⟨"Bob", [], none⟩)]⟩ "Ann"
      = .ok ⟨[("Bob", ⟨"Bob", [], none⟩)]⟩ ∧
    AddressBook.find ⟨[("Bob", ⟨"Bob", [], none⟩)]⟩ "Bob" = some ⟨"Bob", [], none⟩ := by
  refine ⟨?_, ?_, by decide⟩
  · exact (find_delete_spec ⟨[("Ann", ⟨"Ann", [], none⟩), ("Bob", ⟨"Bob", [], none⟩)]⟩
      "Zed" (by decide)).1 (by decide)
  · obtain ⟨b', h1, h2, h3, h4⟩ :=
      (find_delete_spec ⟨[("Ann", ⟨"Ann", [], none⟩), ("Bob", ⟨"Bob", [], none⟩)]⟩
        "Ann" (by decide)).2 ⟨"Ann", [], none⟩ (by decide)
    have he : AddressBook.delete
        ⟨[("Ann", ⟨"Ann", [], none⟩), ("Bob", ⟨"Bob", [], none⟩)]⟩ "Ann"
        = .ok ⟨[("Bob", ⟨"Bob", [], none⟩)]⟩ := by decide
    exact he

end Bot

namespace Bot

/-- Claim C10: key–value coherence invariant: in every AddressBook
reachable through the core operations (starting empty and applying
`add_record`, `delete`, and in-place Record mutations), every stored key
equals the name of the record it maps to, and each record's phones list
holds only valid 10-digit values with no two entries of equal value. -/
theorem reachable_book_invariant (b : AddressBook) (h : Reachable b) :
    ∀ kv ∈ b.data, kv.1 = kv.2.name ∧ (∀ p ∈ kv.2.phones, validPhone p) ∧
      kv.2.phones.Nodup := by
  intro kv hkv
  obtain ⟨h1, hri⟩ := reachable_bookInv b h kv hkv
  exact ⟨h1, hri.1, hri.2⟩

/-- Witness for C10: the singleton book built by `add_record` of
`Record("Ann", "1234567890")` satisfies the invariant at its entry. -/
theorem reachable_book_invariant_witness :
    "Ann" = (⟨"Ann", ["1234567890"], none⟩ : Record).name ∧
    validPhone "1234567890" ∧
    (["1234567890"] : List String).Nodup := by
  have hmk : Record.make "Ann" (some "1234567890")
      = .ok ⟨"Ann", ["1234567890"], none⟩ := by decide
  have hadd : AddressBook.add_record ⟨[]⟩ ⟨"Ann", ["1234567890"], none⟩
      = ⟨[("Ann", ⟨"Ann", ["1234567890"], none⟩)]⟩ := by decide
  have hreach : Reachable ⟨[("Ann", ⟨"Ann", ["1234567890"], none⟩)]⟩ := by
    have h2 := Reachable.add_record ⟨[]⟩ ⟨"Ann", ["1234567890"], none⟩
      Reachable.empty (ReachableRecord.make "Ann" (some "1234567890") _ hmk)
    rw [hadd] at h2
    exact h2
  have h := reachable_book_invariant _ hreach
    ("Ann", ⟨"Ann", ["1234567890"], none⟩) (by simp)
  exact ⟨h.1, h.2.1 "1234567890" (by simp), h.2.2⟩

/-- Claim C1 (amended): provided `get_upcoming_birthdays` completes
normally (it fails instead when a stored Feb-29 birthday must be mapped
into a non-leap year — see the counterexample and C3) and the record
names are pairwise distinct (always true of a book keyed by name), a
record with a birthday contributes an entry to the result if and only if
the number of days from today to the target occurrence — this year's
occurrence of the birthday's month/day, or next year's if this year's has
passed — lies in [0, 7] inclusive.  In particular a birthday exactly
today is included (0-day offset) and one 8 days out is excluded. -/
theorem upcoming_included_iff_window (today : Date) (b : AddressBook)
    (res : List (String × String)) (r : Record) (bd t : Date)
    (hok : AddressBook.get_upcoming_birthdays today b = .ok res)
    (hnm : (b.records.map Record.name).Nodup)
    (hmem : r ∈ b.records) (hbd : r.birthday = some bd)
    (ht : specTarget today bd = some t) :
    (∃ e ∈ res, e.1 = r.name) ↔ inWindow today t := by
  obtain ⟨hres, hall⟩ := collectUpcoming_ok today b.records res hok
  constructor
  · rintro ⟨e, he, hname⟩
    rw [hres] at he
    obtain ⟨r', hr', hsp⟩ := List.mem_filterMap.mp he
    obtain ⟨bd', t', hbd', ht', hw', he'⟩ := specEmit_some today r' e hsp
    have hnames : r'.name = r.name := by
      rw [he'] at hname
      exact hname
    have hrr : r' = r := List.inj_on_of_nodup_map hnm hr' hmem hnames
    rw [hrr] at hbd'
    rw [hbd] at hbd'
    cases hbd'
    rw [ht] at ht'
    cases ht'
    exact hw'
  · intro hw
    refine ⟨(r.name, renderDate (rollWeekend t)), ?_, rfl⟩
    rw [hres]
    exact List.mem_filterMap.mpr ⟨r, hmem, specEmit_eq_some today r bd t hbd ht hw⟩

/-- Witness for C1: with the clock at Monday 2024-06-10 and one record
whose birthday month/day falls exactly today, the record is included. -/
theorem upcoming_included_iff_window_witness :
    (∃ e ∈ [("Ann", "10.06.2024")], e.1 = "Ann")
      ↔ inWindow ⟨2024, 6, 10⟩ ⟨2024, 6, 10⟩ :=
  upcoming_included_iff_window ⟨2024, 6, 10⟩
    ⟨[("Ann", ⟨"Ann", [], some ⟨1990, 6, 10⟩⟩)]⟩
    [("Ann", "10.06.2024")] ⟨"Ann", [], some ⟨1990, 6, 10⟩⟩ ⟨1990, 6, 10⟩ ⟨2024, 6, 10⟩
    (by decide) (by decide) (by decide) rfl (by decide)

/-- Counterexample to C1 as stated: with the clock at 2023-06-10 (a
non-leap year), a book holding a Feb-29 birthday alongside a birthday
falling exactly today produces no result list at all —
`date.replace(year=2023)` raises an unhandled `ValueError` — even though
the second record's target occurrence is today (window condition holds),
so the record is not "included in the result" as the claim requires. -/
theorem upcoming_feb29_counterexample :
    specTarget ⟨2023, 6, 10⟩ ⟨1990, 6, 10⟩ = some ⟨2023, 6, 10⟩ ∧
    inWindow ⟨2023, 6, 10⟩ ⟨2023, 6, 10⟩ ∧
    AddressBook.get_upcoming_birthdays ⟨2023, 6, 10⟩
      ⟨[("Ann", ⟨"Ann", [], some ⟨2020, 2, 29⟩⟩),
        ("Bob", ⟨"Bob", [], some ⟨1990, 6, 10⟩⟩)]⟩
      = .error (.runtimeError "day is out of range for month") := by
  refine ⟨by decide, by decide, by decide⟩

/-- Claim C2: whenever `get_upcoming_birthdays` returns normally, the
result is exactly the per-record emissions in the book's iteration order
(each a pair of the contact's name and the target date rendered as
DD.MM.YYYY after the weekend roll); the target of a stored birthday is
always a constructible date; and the weekend roll moves a Saturday
occurrence (weekday 5) forward 2 days and a Sunday occurrence (weekday 6)
forward 1 day, landing on a Monday (weekday 0), leaving weekdays alone. -/
theorem upcoming_weekend_roll (today : Date) (b : AddressBook)
    (res : List (String × String))
    (hok : AddressBook.get_upcoming_birthdays today b = .ok res) :
    res = b.records.filterMap (specEmit today) ∧
    (∀ bd t, specTarget today bd = some t → t.Valid) ∧
    (∀ t : Date, t.Valid →
      (t.weekday = 5 → rollWeekend t = addDays t 2 ∧ (rollWeekend t).weekday = 0) ∧
      (t.weekday = 6 → rollWeekend t = addDays t 1 ∧ (rollWeekend t).weekday = 0) ∧
      (t.weekday ≠ 5 → t.weekday ≠ 6 → rollWeekend t = t)) := by
  refine ⟨(collectUpcoming_ok today b.records res hok).1, ?_, ?_⟩
  · intro bd t ht
    unfold specTarget at ht
    cases h0 : replaceYear bd today.year with
    | none => rw [h0] at ht; cases ht
    | some b0 =>
      rw [h0] at ht
      have ht1 : (if dateLT b0 today then replaceYear b0 (today.year + 1) else some b0)
          = some t := ht
      by_cases hlt : dateLT b0 today
      · rw [if_pos hlt] at ht1
        exact (replaceYear_some b0 (today.year + 1) t ht1).1
      · rw [if_neg hlt] at ht1
        cases ht1
        exact (replaceYear_some bd today.year t h0).1
  · intro t hv
    refine ⟨?_, ?_, ?_⟩
    · intro h5
      unfold rollWeekend
      rw [if_pos (Or.inl h5), h5]
      refine ⟨rfl, ?_⟩
      rw [weekday_addDays t hv 2, h5]
    · intro h6
      unfold rollWeekend
      rw [if_pos (Or.inr h6), h6]
      refine ⟨rfl, ?_⟩
      rw [weekday_addDays t hv 1, h6]
    · intro h5 h6
      unfold rollWeekend
      rw [if_neg]
      intro hc
      rcases hc with hc | hc
      · exact h5 hc
      · exact h6 hc

/-- Witness for C2: with the clock at Monday 2024-06-10 and a birthday
whose occurrence 2024-06-15 is a Saturday, the emitted date is the
following Monday 17.06.2024, and the result list is the spec-side
emission of the one record. -/
theorem upcoming_weekend_roll_witness :
    [("Ann", "17.06.2024")] =
      (AddressBook.records ⟨[("Ann", ⟨"Ann", [], some ⟨1990, 6, 15⟩⟩)]⟩).filterMap
        (specEmit ⟨2024, 6, 10⟩) :=
  (upcoming_weekend_roll ⟨2024, 6, 10⟩ ⟨[("Ann", ⟨"Ann", [], some ⟨1990, 6, 15⟩⟩)]⟩
    [("Ann", "17.06.2024")] (by decide)).1

/-- Claim C3 (code bug evidence): a record built only through the core
operations — `Record("Ann")`, then `add_birthday("29.02.2020")` accepted
with the clock at 2023-06-10, then `add_record` — makes
`get_upcoming_birthdays` fail with an exception outside the spec's typed
error taxonomy (an unhandled `ValueError` from `date.replace`, modelled
as `runtimeError`), contradicting "core operations never crash". -/
theorem upcoming_birthdays_feb29_crash :
    Record.make "Ann" none = .ok ⟨"Ann", [], none⟩ ∧
    Record.add_birthday ⟨2023, 6, 10⟩ ⟨"Ann", [], none⟩ "29.02.2020"
      = .ok ⟨"Ann", [], some ⟨2020, 2, 29⟩⟩ ∧
    AddressBook.add_record ⟨[]⟩ ⟨"Ann", [], some ⟨2020, 2, 29⟩⟩
      = ⟨[("Ann", ⟨"Ann", [], some ⟨2020, 2, 29⟩⟩)]⟩ ∧
    AddressBook.get_upcoming_birthdays ⟨2023, 6, 10⟩
      ⟨[("Ann", ⟨"Ann", [], some ⟨2020, 2, 29⟩⟩)]⟩
      = .error (.runtimeError "day is out of range for month") := by
  refine ⟨by decide, by decide, by decide, by decide⟩

end Bot
